import Mathlib

/-!
Verification of the BSON builder (`formats/bson/bson_builder.cpp`) and the
config value dictionary (`taxi_config/value.hpp`) of the userver repository.

The encoder is embedded shallowly: the parsed value tree `ValueImpl` mirrors
`formats::bson::impl::ValueImpl::parsed_value_` (a variant over a primitive
holding its `bson_value_`, a parsed document, and a parsed array, plus the
missing state), the output buffer is a list of encoded `Element`s, and each
`Append` overload of `BsonBuilder` becomes a function returning
`Except Err BsonBuilder`.  Machine integers are `Nat`/`Int` with explicit
two's-complement byte serialization.
-/

/-- Error kinds of the builder: `encodingError` models `BsonException`
(wire-format violation), `logicError` models `std::logic_error`
(programmer misuse). -/
inductive Err where
  | encodingError (msg : String)
  | logicError (msg : String)
deriving Repr, DecidableEq

/-- Parsed value tree, mirroring `ValueImpl::parsed_value_`:
`primitive` is the `std::nullptr_t` variant alternative with the node's
`bson_value_` (a BSON type code and its payload bytes), `document` is
`ParsedDocument`, `array` is `ParsedArray`.  `missing` models the missing
state tested by `ValueImpl::IsMissing()`.  `ParsedDocument`'s container type
is not under src/; modelled from the spec: an ordered mapping of string key
to node with insertion order preserved. -/
inductive ValueImpl where
  | missing
  | primitive (typeCode : Nat) (payload : List Nat)
  | document (entries : List (String × ValueImpl))
  | array (elems : List ValueImpl)
deriving Repr

/-- `ValueImpl::IsMissing()`. -/
def ValueImpl.isMissing : ValueImpl → Bool
  | .missing => true
  | _ => false

/-- One encoded BSON element in the output buffer: a scalar element written by
a `bson_append_*` call (type code, key, payload bytes), or a subdocument /
subarray region opened by `SubdocBson` / `SubarrayBson`. -/
inductive Element where
  | elem (typeCode : Nat) (key : String) (payload : List Nat)
  | doc (key : String) (children : List Element)
  | arr (key : String) (children : List Element)
deriving Repr

/-- The key under which an element was appended. -/
def Element.key : Element → String
  | .elem _ k _ => k
  | .doc k _ => k
  | .arr k _ => k

/-- Keys of a buffer of elements, in order. -/
def childKeys (es : List Element) : List String := es.map Element.key

/-- Modelled from the spec: `ArrayIndexer` (declared in `wrappers.hpp`, not
under src/) produces the monotonically increasing decimal key sequence
"0", "1", "2", …; `Advance()` moves to the next index; `GetKey()` reads the
current one; no reuse, no reset. -/
structure ArrayIndexer where
  index : Nat
deriving Repr, DecidableEq

def ArrayIndexer.init : ArrayIndexer := ⟨0⟩

def ArrayIndexer.GetKey (a : ArrayIndexer) : String := toString a.index

def ArrayIndexer.Advance (a : ArrayIndexer) : ArrayIndexer := ⟨a.index + 1⟩

mutual

/-- `BsonBuilder::AppendInto(bson_t* dest, std::string_view key, const
ValueImpl& value)`: returns on a missing value without touching `dest`;
appends the node's `bson_value_` for a primitive; opens a subdocument and
recurses over the entries in order for a document; opens a subarray and
recurses with an `ArrayIndexer` for an array. -/
def AppendInto (dest : List Element) (key : String) (v : ValueImpl) :
    List Element :=
  match v with
  | .missing => dest
  | .primitive tc payload => dest ++ [Element.elem tc key payload]
  | .document entries => dest ++ [Element.doc key (appendDocEntries [] entries)]
  | .array elems =>
      dest ++ [Element.arr key (appendArrayElems [] ArrayIndexer.init elems)]

/-- The document loop of `AppendInto`'s visitor: `for ([key, elem] : doc)
AppendInto(subdoc, key, *elem)`, with `acc` the subdocument contents so far. -/
def appendDocEntries (acc : List Element) :
    List (String × ValueImpl) → List Element
  | [] => acc
  | (k, e) :: rest => appendDocEntries (AppendInto acc k e) rest

/-- The array loop of `AppendInto`'s visitor: `for (elem : array) {
AppendInto(subarray, indexer.GetKey(), *elem); indexer.Advance(); }`.
Note `Advance()` runs whether or not the element was missing. -/
def appendArrayElems (acc : List Element) (indexer : ArrayIndexer) :
    List ValueImpl → List Element
  | [] => acc
  | e :: rest =>
      appendArrayElems (AppendInto acc indexer.GetKey e) indexer.Advance rest

end

/-- Little-endian 32-bit byte serialization. -/
def u32LE (n : Nat) : List Nat :=
  [n % 256, n / 2 ^ 8 % 256, n / 2 ^ 16 % 256, n / 2 ^ 24 % 256]

/-- Little-endian two's-complement byte serialization of a signed 64-bit
integer. -/
def i64LE (v : Int) : List Nat :=
  let n := (v % (2 ^ 64 : Nat)).toNat
  [n % 256, n / 2 ^ 8 % 256, n / 2 ^ 16 % 256, n / 2 ^ 24 % 256,
   n / 2 ^ 32 % 256, n / 2 ^ 40 % 256, n / 2 ^ 48 % 256, n / 2 ^ 56 % 256]

/-- `std::numeric_limits<int64_t>::max()`. -/
def int64Max : Nat := 2 ^ 63 - 1

/-- `static_cast<int64_t>` of a `uint64_t`: two's-complement reinterpretation. -/
def castToInt64 (v : Nat) : Int :=
  if v < 2 ^ 63 then (v : Int) else (v : Int) - 2 ^ 64

/-- UTF-8 key bytes of an element key. -/
def keyBytes (k : String) : List Nat := k.toUTF8.toList.map UInt8.toNat

mutual

/-- Byte serialization of one encoded element, per the wire format of the
spec: 1-byte type code, null-terminated key, type-specific payload; a
subdocument / subarray payload is recursively a serialized document. -/
def serializeElement : Element → List Nat
  | .elem tc key payload => tc :: (keyBytes key ++ [0] ++ payload)
  | .doc key children => 0x03 :: (keyBytes key ++ [0] ++ serializeDoc children)
  | .arr key children => 0x04 :: (keyBytes key ++ [0] ++ serializeDoc children)

/-- Byte serialization of a document: 4-byte little-endian total length
(including the prefix itself and the trailing null), the elements, a
trailing null byte. -/
def serializeDoc (children : List Element) : List Nat :=
  let body := serializeElems children
  u32LE (4 + body.length + 1) ++ body ++ [0]

/-- Concatenated serialization of a buffer of elements. -/
def serializeElems : List Element → List Nat
  | [] => []
  | e :: rest => serializeElement e ++ serializeElems rest

end

/-- The builder: the `extracted` flag models the state of the underlying
`MutableBson` wrapper (modelled from the spec: `Empty → Building →
Extracted`, any `Append` or `Extract` after `Extracted` fails with
LogicError), `buffer` is the root document's elements so far. -/
structure BsonBuilder where
  extracted : Bool
  buffer : List Element
deriving Repr

/-- `BsonBuilder::BsonBuilder()`: fresh builder, empty document. -/
def BsonBuilder.new : BsonBuilder := ⟨false, []⟩

/-- `BsonBuilder::BsonBuilder(const ValueImpl&)`: `std::visit` of the seeding
visitor over `value.parsed_value_`.  The `std::nullptr_t` alternative (a
missing or bare-primitive value) throws
`std::logic_error("Attempt to build a document from primitive type")`; a
document loops `AppendInto(bson_->Get(), key, *elem)` over its entries; an
array loops with an `ArrayIndexer`. -/
def BsonBuilder.ofValueImpl (v : ValueImpl) : Except Err BsonBuilder :=
  match v with
  | .missing =>
      .error (.logicError "Attempt to build a document from primitive type")
  | .primitive _ _ =>
      .error (.logicError "Attempt to build a document from primitive type")
  | .document entries => .ok ⟨false, appendDocEntries [] entries⟩
  | .array elems => .ok ⟨false, appendArrayElems [] ArrayIndexer.init elems⟩

/-- `BsonBuilder::Append(std::string_view key, int64_t value)`:
`bson_append_int64` writes type code 0x12 and the 8-byte little-endian
two's-complement payload. -/
def BsonBuilder.AppendInt64 (b : BsonBuilder) (key : String) (v : Int) :
    Except Err BsonBuilder :=
  if b.extracted then
    .error (.logicError "BsonBuilder is extracted")
  else
    .ok ⟨false, b.buffer ++ [Element.elem 0x12 key (i64LE v)]⟩

/-- `BsonBuilder::Append(std::string_view key, uint64_t value)`: throws
`BsonException` when the value exceeds `std::numeric_limits<int64_t>::max()`,
otherwise delegates to the `int64_t` overload via `static_cast<int64_t>`. -/
def BsonBuilder.AppendUInt64 (b : BsonBuilder) (key : String) (v : Nat) :
    Except Err BsonBuilder :=
  if int64Max < v then
    .error (.encodingError
      ("The value " ++ toString v ++ " of " ++ key ++ " is too high for BSON"))
  else
    b.AppendInt64 key (castToInt64 v)

/-- Modelled from the spec: `utils::text::utf8::IsValid` (not under src/),
standard UTF-8 validation (RFC 3629): ASCII bytes stand alone; 2-, 3- and
4-byte sequences have a leading byte in the proper range followed by
continuation bytes 0x80..0xBF, with overlong encodings, surrogates and code
points beyond U+10FFFF rejected. -/
def utf8Cont (b : Nat) : Bool := 0x80 ≤ b && b ≤ 0xBF

def utf8IsValid : List Nat → Bool
  | [] => true
  | b0 :: rest =>
    if b0 ≤ 0x7F then utf8IsValid rest
    else if 0xC2 ≤ b0 && b0 ≤ 0xDF then
      match rest with
      | b1 :: rest1 => utf8Cont b1 && utf8IsValid rest1
      | [] => false
    else if b0 = 0xE0 then
      match rest with
      | b1 :: b2 :: rest2 =>
          (0xA0 ≤ b1 && b1 ≤ 0xBF) && utf8Cont b2 && utf8IsValid rest2
      | _ => false
    else if (0xE1 ≤ b0 && b0 ≤ 0xEC) || b0 = 0xEE || b0 = 0xEF then
      match rest with
      | b1 :: b2 :: rest2 => utf8Cont b1 && utf8Cont b2 && utf8IsValid rest2
      | _ => false
    else if b0 = 0xED then
      match rest with
      | b1 :: b2 :: rest2 =>
          (0x80 ≤ b1 && b1 ≤ 0x9F) && utf8Cont b2 && utf8IsValid rest2
      | _ => false
    else if b0 = 0xF0 then
      match rest with
      | b1 :: b2 :: b3 :: rest3 =>
          (0x90 ≤ b1 && b1 ≤ 0xBF) && utf8Cont b2 && utf8Cont b3 &&
            utf8IsValid rest3
      | _ => false
    else if 0xF1 ≤ b0 && b0 ≤ 0xF3 then
      match rest with
      | b1 :: b2 :: b3 :: rest3 =>
          utf8Cont b1 && utf8Cont b2 && utf8Cont b3 && utf8IsValid rest3
      | _ => false
    else if b0 = 0xF4 then
      match rest with
      | b1 :: b2 :: b3 :: rest3 =>
          (0x80 ≤ b1 && b1 ≤ 0x8F) && utf8Cont b2 && utf8Cont b3 &&
            utf8IsValid rest3
      | _ => false
    else false

/-- `BsonBuilder::Append(std::string_view key, std::string_view value)`:
throws `BsonException("BSON strings must be valid UTF-8")` unless the value
is valid UTF-8, then `bson_append_utf8` writes type code 0x02 and the payload
(4-byte little-endian byte count including the trailing null, the bytes, a
trailing null). -/
def BsonBuilder.AppendString (b : BsonBuilder) (key : String)
    (value : List Nat) : Except Err BsonBuilder :=
  if utf8IsValid value = false then
    .error (.encodingError "BSON strings must be valid UTF-8")
  else if b.extracted then
    .error (.logicError "BsonBuilder is extracted")
  else
    .ok ⟨false,
      b.buffer ++
        [Element.elem 0x02 key (u32LE (value.length + 1) ++ value ++ [0])]⟩

/-- `ValueImpl::GetNative()`: the node's `bson_value_` — type code and
payload bytes; for a parsed document or array the native value holds the
serialized container bytes. -/
def ValueImpl.getNative : ValueImpl → Nat × List Nat
  | .missing => (0x0A, [])
  | .primitive tc payload => (tc, payload)
  | .document entries => (0x03, serializeDoc (appendDocEntries [] entries))
  | .array elems =>
      (0x04, serializeDoc (appendArrayElems [] ArrayIndexer.init elems))

/-- `BsonBuilder::Append(std::string_view key, const Value& value)`:
`value.impl_->CheckNotMissing()` first (modelled from the spec: raises a
`BsonException`-kind error on a missing value before anything is written),
then `bson_append_value` copies the value's native typed payload verbatim
under the key. -/
def BsonBuilder.AppendValue (b : BsonBuilder) (key : String) (v : ValueImpl) :
    Except Err BsonBuilder :=
  if v.isMissing then
    .error (.encodingError "Value is missing")
  else if b.extracted then
    .error (.logicError "BsonBuilder is extracted")
  else
    .ok ⟨false,
      b.buffer ++ [Element.elem v.getNative.1 key v.getNative.2]⟩

/-- `BsonBuilder::Extract()`, delegating to the `MutableBson` wrapper
(modelled from the spec): single-use; finalizes and returns the document
bytes, after which any `Append` or `Extract` on the instance fails with
LogicError. -/
def BsonBuilder.Extract (b : BsonBuilder) :
    Except Err (List Nat × BsonBuilder) :=
  if b.extracted then
    .error (.logicError "BsonBuilder is extracted")
  else
    .ok (serializeDoc b.buffer, ⟨true, b.buffer⟩)

/-- A document nested `n` levels: `nestedDoc 0` is a primitive scalar,
`nestedDoc (n+1)` is a one-entry document wrapping `nestedDoc n`. -/
def nestedDoc : Nat → ValueImpl
  | 0 => .primitive 0x0A []
  | n + 1 => .document [("a", nestedDoc n)]

/-- Modelled from the spec: `taxi_config::kValueDictDefaultName` (declared
`extern` in `value.hpp`, defined elsewhere) — the reserved sentinel key that
supplies the default value. -/
def kValueDictDefaultName : String := "__default__"

/-- `taxi_config::ValueDict<ValueType>`: a name (used in error messages) and
the underlying map `dict_`.  The `std::unordered_map` is embedded as an
association list with `List.lookup` as `find`. -/
structure ValueDict (V : Type) where
  name : String
  dict : List (String × V)

/-- `ValueDict::operator[](const std::string&)`: look the key up; on a miss
look the reserved default key up; on a second miss throw a runtime error
naming the requested key (and the dictionary name when nonempty). -/
def ValueDict.getItem {V : Type} (d : ValueDict V) (key : String) :
    Except String V :=
  match d.dict.lookup key with
  | some v => .ok v
  | none =>
    match d.dict.lookup kValueDictDefaultName with
    | some v => .ok v
    | none =>
        .error ("no value for " ++ key ++
          (if d.name = "" then "" else " in " ++ d.name))

/-- `ValueDict::GetOptional(const std::string&)`: same lookup chain, with
`boost::none` instead of the exception. -/
def ValueDict.GetOptional {V : Type} (d : ValueDict V) (key : String) :
    Option V :=
  match d.dict.lookup key with
  | some v => some v
  | none =>
    match d.dict.lookup kValueDictDefaultName with
    | some v => some v
    | none => none

/-! ### Helper lemmas about the traversal -/

/-- `AppendInto` only ever appends to its destination buffer. -/
theorem appendInto_eq_append (dest : List Element) (key : String)
    (v : ValueImpl) : AppendInto dest key v = dest ++ AppendInto [] key v := by
  cases v <;> simp [AppendInto]

/-- The document loop only ever appends to its accumulator. -/
theorem appendDocEntries_eq_append (acc : List Element)
    (l : List (String × ValueImpl)) :
    appendDocEntries acc l = acc ++ appendDocEntries [] l := by
  induction l generalizing acc with
  | nil => simp [appendDocEntries]
  | cons p rest ih =>
    obtain ⟨k, e⟩ := p
    rw [appendDocEntries, appendDocEntries]
    rw [ih (AppendInto acc k e), ih (AppendInto [] k e)]
    rw [appendInto_eq_append acc k e]
    simp

/-- The array loop only ever appends to its accumulator. -/
theorem appendArrayElems_eq_append (acc : List Element) (idx : ArrayIndexer)
    (l : List ValueImpl) :
    appendArrayElems acc idx l = acc ++ appendArrayElems [] idx l := by
  induction l generalizing acc idx with
  | nil => simp [appendArrayElems]
  | cons e rest ih =>
    rw [appendArrayElems, appendArrayElems]
    rw [ih (AppendInto acc idx.GetKey e), ih (AppendInto [] idx.GetKey e)]
    rw [appendInto_eq_append acc idx.GetKey e]
    simp

/-- Keys distribute over buffer concatenation. -/
theorem childKeys_append (a b : List Element) :
    childKeys (a ++ b) = childKeys a ++ childKeys b := by
  simp [childKeys]

/-- A non-missing node emits exactly one element, under the given key. -/
theorem childKeys_appendInto (key : String) (v : ValueImpl)
    (h : v.isMissing = false) :
    childKeys (AppendInto [] key v) = [key] := by
  cases v <;> simp_all [AppendInto, ValueImpl.isMissing, childKeys, Element.key]

/-- Keys of an array encoding started at index `i` over all-present elements:
the decimal indices `i, i+1, …` in order. -/
theorem childKeys_appendArrayElems (i : Nat) (elems : List ValueImpl)
    (h : ∀ e ∈ elems, e.isMissing = false) :
    childKeys (appendArrayElems [] ⟨i⟩ elems) =
      (List.range elems.length).map (fun j => toString (i + j)) := by
  induction elems generalizing i with
  | nil => simp [appendArrayElems, childKeys]
  | cons e rest ih =>
    have he : e.isMissing = false := h e (by simp)
    have hrest : ∀ x ∈ rest, x.isMissing = false := fun x hx =>
      h x (List.mem_cons_of_mem e hx)
    rw [appendArrayElems, appendArrayElems_eq_append, childKeys_append]
    have hkey : (ArrayIndexer.mk i).GetKey = toString i := rfl
    have hadv : (ArrayIndexer.mk i).Advance = ⟨i + 1⟩ := rfl
    rw [hkey, hadv, childKeys_appendInto _ _ he, ih (i + 1) hrest]
    rw [List.length_cons, List.range_succ_eq_map, List.map_cons, List.map_map]
    refine congrArg₂ List.cons (by simp) ?_
    refine List.map_congr_left fun j _ => ?_
    simp [Function.comp]
    exact congrArg toString (by omega)

/-- Keys of a document encoding over all-present entries: the entry keys in
order. -/
theorem childKeys_appendDocEntries (entries : List (String × ValueImpl))
    (h : ∀ p ∈ entries, (Prod.snd p).isMissing = false) :
    childKeys (appendDocEntries [] entries) = entries.map Prod.fst := by
  induction entries with
  | nil => simp [appendDocEntries, childKeys]
  | cons p rest ih =>
    obtain ⟨k, e⟩ := p
    have he : e.isMissing = false := h (k, e) (by simp)
    have hrest : ∀ x ∈ rest, (Prod.snd x).isMissing = false := fun x hx =>
      h x (List.mem_cons_of_mem (k, e) hx)
    rw [appendDocEntries, appendDocEntries_eq_append, childKeys_append]
    rw [childKeys_appendInto _ _ he, ih hrest]
    simp

/-! ### Claim theorems -/

/-- C1: For every array node, the encoder assigns the elements the decimal
keys "0", "1", "2", … in traversal order via `ArrayIndexer`, ignoring any key
information present on the source nodes (the elements themselves may carry
arbitrary keys in nested documents — only the indexer determines the encoded
keys). -/
theorem c1_array_keys (dest : List Element) (key : String)
    (elems : List ValueImpl) (h : ∀ e ∈ elems, e.isMissing = false) :
    AppendInto dest key (ValueImpl.array elems) =
      dest ++ [Element.arr key (appendArrayElems [] ArrayIndexer.init elems)]
    ∧ childKeys (appendArrayElems [] ArrayIndexer.init elems) =
      (List.range elems.length).map (fun j => toString j) := by
  constructor
  · rfl
  · have := childKeys_appendArrayElems 0 elems h
    simpa [ArrayIndexer.init] using this

/-- C1 witness: appending three elements (one of which is a nested document
with its own internal key) yields encoded keys "0", "1", "2" in exactly that
order. -/
theorem c1_array_keys_witness :
    (∀ e ∈ [ValueImpl.primitive 0x10 [1, 0, 0, 0],
            ValueImpl.document [("zzz", ValueImpl.primitive 0x0A [])],
            ValueImpl.primitive 0x0A []], e.isMissing = false)
    ∧ childKeys (appendArrayElems [] ArrayIndexer.init
        [ValueImpl.primitive 0x10 [1, 0, 0, 0],
         ValueImpl.document [("zzz", ValueImpl.primitive 0x0A [])],
         ValueImpl.primitive 0x0A []]) = ["0", "1", "2"] := by
  refine ⟨by decide, ?_⟩
  rw [(c1_array_keys [] "k" _ (by decide)).2]
  rfl

/-- C4 counterexample: the claim says a Missing child "does not consume an
array index", but the array loop advances its indexer unconditionally: for
the array [present, Missing, present] the encoded keys are "0" and "2" — the
Missing element consumed index "1". -/
theorem c4_counterexample :
    childKeys (appendArrayElems [] ArrayIndexer.init
      [ValueImpl.primitive 0x0A [], ValueImpl.missing,
       ValueImpl.primitive 0x0A []]) = ["0", "2"]
    ∧ (["0", "2"] : List String) ≠ ["0", "1"] := by
  exact ⟨rfl, by decide⟩

/-- C4 amended: a Missing child emits zero bytes into the output buffer; a
Document with one present entry and one Missing entry encodes exactly one
element; in an array, however, a Missing element still consumes its array
index (the indexer advances past it), so later elements get later keys. -/
theorem c4_missing_skip (dest : List Element) (key k1 k2 : String)
    (e : ValueImpl) (acc : List Element) (idx : ArrayIndexer)
    (rest : List ValueImpl) (h : e.isMissing = false) :
    AppendInto dest key ValueImpl.missing = dest
    ∧ childKeys (appendDocEntries [] [(k1, e), (k2, ValueImpl.missing)]) = [k1]
    ∧ appendArrayElems acc idx (ValueImpl.missing :: rest) =
        appendArrayElems acc idx.Advance rest := by
  refine ⟨rfl, ?_, ?_⟩
  · rw [appendDocEntries, appendDocEntries, appendDocEntries]
    rw [show AppendInto (AppendInto [] k1 e) k2 ValueImpl.missing =
          AppendInto [] k1 e from rfl]
    exact childKeys_appendInto k1 e h
  · rw [appendArrayElems]
    rw [show AppendInto acc idx.GetKey ValueImpl.missing = acc from rfl]

/-- C4 amended witness: the Document [(x, present), (y, Missing)] encodes
exactly the one element with key "x". -/
theorem c4_missing_skip_witness :
    (ValueImpl.primitive 0x0A []).isMissing = false
    ∧ childKeys (appendDocEntries []
        [("x", ValueImpl.primitive 0x0A []), ("y", ValueImpl.missing)]) =
      ["x"] := by
  exact ⟨rfl, (c4_missing_skip [] "k" "x" "y" (ValueImpl.primitive 0x0A [])
    [] ArrayIndexer.init [] rfl).2.1⟩

/-- C5: the claim says recursive descent is bounded by a counted-depth check
of about 200 levels raising EncodingError beyond it.  `AppendInto` has no
depth parameter and no such check: encoding a document nested 201 + n levels
(any `n`) succeeds and emits exactly one element — no error is ever raised,
at any depth. -/
theorem c5_no_depth_check (n : Nat) (dest : List Element) (key : String) :
    (AppendInto dest key (nestedDoc (201 + n))).length = dest.length + 1 := by
  have h : 201 + n = (200 + n) + 1 := by omega
  rw [h, nestedDoc, AppendInto]
  simp

/-- C8: For every Document node, the encoder visits and emits its
(key, child) pairs in exactly the document's order, at the top level and
inside nested sub-documents alike (the statement holds for the entry list of
any document node, nested or not). -/
theorem c8_doc_order (dest : List Element) (key : String)
    (entries : List (String × ValueImpl))
    (h : ∀ p ∈ entries, (Prod.snd p).isMissing = false) :
    AppendInto dest key (ValueImpl.document entries) =
      dest ++ [Element.doc key (appendDocEntries [] entries)]
    ∧ childKeys (appendDocEntries [] entries) = entries.map Prod.fst := by
  exact ⟨rfl, childKeys_appendDocEntries entries h⟩

/-- C8 witness: a two-entry document with a nested sub-document emits keys
in insertion order at both levels. -/
theorem c8_doc_order_witness :
    (∀ p ∈ [("b", ValueImpl.primitive 0x0A []),
            ("a", ValueImpl.document [("d", ValueImpl.primitive 0x0A []),
                                      ("c", ValueImpl.primitive 0x0A [])])],
      (Prod.snd p).isMissing = false)
    ∧ childKeys (appendDocEntries []
        [("b", ValueImpl.primitive 0x0A []),
         ("a", ValueImpl.document [("d", ValueImpl.primitive 0x0A []),
                                   ("c", ValueImpl.primitive 0x0A [])])]) =
      ["b", "a"] := by
  refine ⟨by decide, ?_⟩
  rw [(c8_doc_order [] "k" _ (by decide)).2]
  rfl

/-- C2: `Append(key, uint64_t)` raises EncodingError if and only if the value
exceeds the signed-64-bit maximum; at exactly the maximum it behaves
identically to the signed 64-bit append (same bit pattern, since the
two's-complement cast is the identity there) and succeeds on a non-extracted
builder; one greater fails. -/
theorem c2_uint64_overflow (b : BsonBuilder) (key : String) (v : Nat) :
    ((∃ msg, b.AppendUInt64 key v = .error (.encodingError msg)) ↔
      int64Max < v)
    ∧ b.AppendUInt64 key int64Max = b.AppendInt64 key (Int.ofNat int64Max)
    ∧ (b.extracted = false →
        b.AppendUInt64 key int64Max =
          .ok ⟨false, b.buffer ++
            [Element.elem 0x12 key (i64LE (Int.ofNat int64Max))]⟩)
    ∧ (∃ msg, b.AppendUInt64 key (int64Max + 1) =
        .error (.encodingError msg)) := by
  have hcast : castToInt64 int64Max = Int.ofNat int64Max := by
    simp [castToInt64, int64Max]
  have hmaxeq : b.AppendUInt64 key int64Max =
      b.AppendInt64 key (Int.ofNat int64Max) := by
    rw [BsonBuilder.AppendUInt64, if_neg (by omega), hcast]
  refine ⟨⟨?_, ?_⟩, hmaxeq, ?_, ?_⟩
  · rintro ⟨msg, hmsg⟩
    by_contra hle
    rw [BsonBuilder.AppendUInt64, if_neg hle] at hmsg
    cases hb : b.extracted <;>
      simp [BsonBuilder.AppendInt64, hb] at hmsg
  · intro hv
    exact ⟨_, by rw [BsonBuilder.AppendUInt64, if_pos hv]⟩
  · intro hb
    rw [hmaxeq, BsonBuilder.AppendInt64, if_neg (by simp [hb])]
  · exact ⟨_, by rw [BsonBuilder.AppendUInt64, if_pos (by omega)]⟩

/-- C2 witness: on a fresh builder, appending the signed-64-bit maximum as
uint64 succeeds with the int64 bit pattern 0xFF…FF7F. -/
theorem c2_uint64_overflow_witness :
    BsonBuilder.new.extracted = false
    ∧ BsonBuilder.new.AppendUInt64 "k" int64Max =
        .ok ⟨false, [Element.elem 0x12 "k"
          [255, 255, 255, 255, 255, 255, 255, 127]]⟩ := by
  refine ⟨rfl, ?_⟩
  rw [(c2_uint64_overflow BsonBuilder.new "k" 0).2.2.1 rfl]
  rfl

/-- C3: `Append(key, string)` raises EncodingError if and only if the string
is not valid UTF-8; a lone continuation byte 0x80 fails; the empty string
succeeds on a non-extracted builder and encodes with zero content bytes (the
payload is just the length field counting the trailing null, then the null). -/
theorem c3_string_utf8 (b : BsonBuilder) (key : String) (value : List Nat) :
    ((∃ msg, b.AppendString key value = .error (.encodingError msg)) ↔
      utf8IsValid value = false)
    ∧ (∃ msg, b.AppendString key [0x80] = .error (.encodingError msg))
    ∧ (b.extracted = false →
        b.AppendString key [] =
          .ok ⟨false, b.buffer ++
            [Element.elem 0x02 key (u32LE 1 ++ [0])]⟩) := by
  refine ⟨⟨?_, ?_⟩, ?_, ?_⟩
  · rintro ⟨msg, hmsg⟩
    by_contra hval
    rw [BsonBuilder.AppendString, if_neg hval] at hmsg
    cases hb : b.extracted <;> simp [hb] at hmsg
  · intro hval
    exact ⟨_, by rw [BsonBuilder.AppendString, if_pos hval]⟩
  · exact ⟨_, by
      rw [BsonBuilder.AppendString,
        if_pos (show utf8IsValid [0x80] = false from rfl)]⟩
  · intro hb
    rw [BsonBuilder.AppendString, if_neg (by decide), if_neg (by simp [hb])]
    rfl

/-- C3 witness: on a fresh builder, the empty string appends successfully
with payload [1,0,0,0,0] — a zero-length string. -/
theorem c3_string_utf8_witness :
    BsonBuilder.new.extracted = false
    ∧ BsonBuilder.new.AppendString "k" [] =
        .ok ⟨false, [Element.elem 0x02 "k" [1, 0, 0, 0, 0]]⟩ := by
  refine ⟨rfl, ?_⟩
  rw [(c3_string_utf8 BsonBuilder.new "k" []).2.2 rfl]
  rfl

/-- C6: constructing the builder from a tree whose root is Missing or a bare
primitive raises LogicError; for every Document or Array root, construction
succeeds and seeds the builder recursively from the root's children. -/
theorem c6_root_container (tc : Nat) (p : List Nat)
    (entries : List (String × ValueImpl)) (elems : List ValueImpl) :
    (∃ m, BsonBuilder.ofValueImpl ValueImpl.missing =
      .error (.logicError m))
    ∧ (∃ m, BsonBuilder.ofValueImpl (ValueImpl.primitive tc p) =
        .error (.logicError m))
    ∧ BsonBuilder.ofValueImpl (ValueImpl.document entries) =
        .ok ⟨false, appendDocEntries [] entries⟩
    ∧ BsonBuilder.ofValueImpl (ValueImpl.array elems) =
        .ok ⟨false, appendArrayElems [] ArrayIndexer.init elems⟩ := by
  exact ⟨⟨_, rfl⟩, ⟨_, rfl⟩, rfl, rfl⟩

/-- C7: `Extract()` is single-use: on a non-extracted builder it finalizes
and returns the serialized buffer, after which a second `Extract` and every
`Append` fail with LogicError; `Extract` on a fresh (Empty) builder yields
the well-formed empty-document encoding [5,0,0,0,0]. -/
theorem c7_extract_single_use (b : BsonBuilder) (key : String) (v : Int)
    (w : Nat) (s : List Nat) :
    BsonBuilder.new.Extract = .ok ([5, 0, 0, 0, 0], ⟨true, []⟩)
    ∧ (b.extracted = false →
        b.Extract = .ok (serializeDoc b.buffer, ⟨true, b.buffer⟩))
    ∧ (∀ bytes b2, b.Extract = .ok (bytes, b2) →
        b2.extracted = true
        ∧ (∃ m, b2.Extract = .error (.logicError m))
        ∧ (∃ m, b2.AppendInt64 key v = .error (.logicError m)))
    ∧ (b.extracted = true →
        (∃ m, b.Extract = .error (.logicError m))
        ∧ (∃ m, b.AppendInt64 key v = .error (.logicError m))
        ∧ (w ≤ int64Max →
            ∃ m, b.AppendUInt64 key w = .error (.logicError m))
        ∧ (utf8IsValid s = true →
            ∃ m, b.AppendString key s = .error (.logicError m))) := by
  refine ⟨?_, ?_, ?_, ?_⟩
  · simp [BsonBuilder.Extract, BsonBuilder.new, serializeDoc, serializeElems,
      u32LE]
  · intro hb
    rw [BsonBuilder.Extract, if_neg (by simp [hb])]
  · intro bytes b2 hex
    rw [BsonBuilder.Extract] at hex
    by_cases hb : b.extracted = true
    · rw [if_pos hb] at hex; cases hex
    · rw [if_neg hb] at hex
      have hb2 : b2 = ⟨true, b.buffer⟩ := by
        cases hex; rfl
      subst hb2
      exact ⟨rfl, ⟨_, by rw [BsonBuilder.Extract, if_pos rfl]⟩,
        ⟨_, by rw [BsonBuilder.AppendInt64, if_pos rfl]⟩⟩
  · intro hb
    refine ⟨⟨_, by rw [BsonBuilder.Extract, if_pos hb]⟩,
      ⟨_, by rw [BsonBuilder.AppendInt64, if_pos hb]⟩, ?_, ?_⟩
    · intro hw
      exact ⟨_, by
        rw [BsonBuilder.AppendUInt64, if_neg (by omega),
          BsonBuilder.AppendInt64, if_pos hb]⟩
    · intro hs
      exact ⟨_, by
        rw [BsonBuilder.AppendString, if_neg (by simp [hs]), if_pos hb]⟩

/-- C7 witness: extracting a fresh builder yields the empty document
[5,0,0,0,0]; the returned instance is extracted, and a second `Extract` and
an `Append` on it fail with LogicError. -/
theorem c7_extract_single_use_witness :
    BsonBuilder.Extract ⟨false, []⟩ = .ok ([5, 0, 0, 0, 0], ⟨true, []⟩)
    ∧ (BsonBuilder.mk true []).extracted = true
    ∧ (∃ m, (BsonBuilder.mk true []).Extract = .error (.logicError m))
    ∧ (∃ m, (BsonBuilder.mk true []).AppendInt64 "k" 0 =
        .error (.logicError m)) := by
  have h := c7_extract_single_use (BsonBuilder.mk false []) "k" 0 0 []
  have hex := h.1
  have hrest := h.2.2.1 [5, 0, 0, 0, 0] ⟨true, []⟩ hex
  exact ⟨hex, hrest.1, hrest.2.1, hrest.2.2⟩

/-- C9: `ValueDict::operator[]`: a present key returns its value; an absent
key falls back to the reserved default key's value when that is present;
otherwise a runtime error naming the requested key (and the dictionary name)
is raised. -/
theorem c9_valuedict_lookup {V : Type} (d : ValueDict V) (key : String)
    (v : V) :
    (d.dict.lookup key = some v → d.getItem key = .ok v)
    ∧ (d.dict.lookup key = none →
        d.dict.lookup kValueDictDefaultName = some v →
        d.getItem key = .ok v)
    ∧ (d.dict.lookup key = none →
        d.dict.lookup kValueDictDefaultName = none →
        d.getItem key =
          .error ("no value for " ++ key ++
            (if d.name = "" then "" else " in " ++ d.name))) := by
  refine ⟨?_, ?_, ?_⟩
  · intro h1
    simp [ValueDict.getItem, h1]
  · intro h1 h2
    simp [ValueDict.getItem, h1, h2]
  · intro h1 h2
    simp [ValueDict.getItem, h1, h2]

/-- C9 witness: a dictionary holding keys "a" and the default sentinel
returns 3 for "a" and the default value 7 for the absent key "b"; a
dictionary without the sentinel raises an error naming the absent key. -/
theorem c9_valuedict_lookup_witness :
    ((ValueDict.mk "cfg" [("a", 3), (kValueDictDefaultName, 7)]).dict.lookup
        "a" = some 3)
    ∧ (ValueDict.getItem ⟨"cfg", [("a", 3), (kValueDictDefaultName, 7)]⟩
        "a" : Except String Nat) = .ok 3
    ∧ (ValueDict.getItem ⟨"cfg", [("a", 3), (kValueDictDefaultName, 7)]⟩
        "b" : Except String Nat) = .ok 7
    ∧ (ValueDict.getItem ⟨"cfg", [("a", 3)]⟩ "b" : Except String Nat) =
        .error "no value for b in cfg" := by
  refine ⟨by decide, ?_, ?_, ?_⟩
  · exact (c9_valuedict_lookup
      (⟨"cfg", [("a", 3), (kValueDictDefaultName, 7)]⟩ : ValueDict Nat)
      "a" 3).1 (by decide)
  · exact (c9_valuedict_lookup
      (⟨"cfg", [("a", 3), (kValueDictDefaultName, 7)]⟩ : ValueDict Nat)
      "b" 7).2.1 (by decide) (by decide)
  · have h := (c9_valuedict_lookup
      (⟨"cfg", [("a", 3)]⟩ : ValueDict Nat) "b" 0).2.2
      (by decide) (by decide)
    rw [h]
    rfl

/-- C10: the public `Append(key, Value)` overload rejects a Missing value by
raising an error (returning it, writing nothing), in contrast with tree
traversal where a Missing child is silently skipped; for every non-Missing
value on a non-extracted builder it appends the value's typed native payload
verbatim under the given key. -/
theorem c10_append_value (b : BsonBuilder) (key : String) (v : ValueImpl) :
    (v.isMissing = true →
      (∃ m, b.AppendValue key v = .error (.encodingError m))
      ∧ AppendInto b.buffer key v = b.buffer)
    ∧ (v.isMissing = false → b.extracted = false →
        b.AppendValue key v =
          .ok ⟨false, b.buffer ++
            [Element.elem v.getNative.1 key v.getNative.2]⟩) := by
  constructor
  · intro hm
    have hv : v = ValueImpl.missing := by
      cases v <;> simp_all [ValueImpl.isMissing]
    subst hv
    exact ⟨⟨_, by
      rw [BsonBuilder.AppendValue,
        if_pos (show ValueImpl.missing.isMissing = true from rfl)]⟩, rfl⟩
  · intro hm hb
    rw [BsonBuilder.AppendValue, if_neg (by simp [hm]), if_neg (by simp [hb])]

/-- C10 witness: on a fresh builder, appending a Missing value errors while
traversal skips it; appending a present boolean value emits its payload
verbatim. -/
theorem c10_append_value_witness :
    (ValueImpl.missing.isMissing = true)
    ∧ (∃ m, BsonBuilder.new.AppendValue "k" ValueImpl.missing =
        .error (.encodingError m))
    ∧ AppendInto BsonBuilder.new.buffer "k" ValueImpl.missing =
        BsonBuilder.new.buffer
    ∧ BsonBuilder.new.AppendValue "k" (ValueImpl.primitive 0x08 [1]) =
        .ok ⟨false, [Element.elem 0x08 "k" [1]]⟩ := by
  have h1 := (c10_append_value BsonBuilder.new "k" ValueImpl.missing).1 rfl
  have h2 := (c10_append_value BsonBuilder.new "k"
    (ValueImpl.primitive 0x08 [1])).2 rfl rfl
  exact ⟨rfl, h1.1, h1.2, by rw [h2]; rfl⟩
